import Mathlib

/-!
Verification development for the document-symbol handler of coc.nvim
(`src/handler/symbols.ts`): the per-buffer symbol cache (`SymbolsBuffer`,
with its debounced and forced fetch paths, cancellation tokens and
version-gated commits) and the query engine built on its snapshots
(`getCurrentFunctionInfo`, `getCurrentFunctionSymbol`,
`selectSymbolRange`).

The pure query algorithms are embedded as Lean functions over explicit
snapshot values; the stateful buffer is embedded as a step function on an
explicit `BufState`, with the provider call's suspension point modeled as
a separate `providerReturn` event, so arbitrary interleavings of the
public operations can be examined as event traces.
-/

/-! ## Positions and ranges

`SymbolInfo.range` uses LSP positions (0-based line / character).  The
containment helpers live in `src/util/position.ts`, which is not part of
this excerpt; they are modeled from the spec's description of the
containment tests. -/

/-- LSP position: 0-based line and character. -/
structure Position where
  line : Nat
  character : Nat
deriving DecidableEq, Repr

/-- LSP range: `start`/`end` positions (`end` is a Lean keyword, written `end_`). -/
structure Range where
  start : Position
  end_ : Position
deriving DecidableEq, Repr

/-- Modelled from the spec: lexicographic comparison of positions (line first,
then character), the order underlying the containment tests of
`src/util/position.ts`, which is missing from this excerpt.
Returns -1, 0 or 1 like the JS comparator. -/
def comparePosition (p q : Position) : Int :=
  if p.line < q.line then -1
  else if p.line > q.line then 1
  else if p.character < q.character then -1
  else if p.character > q.character then 1
  else 0

/-- Modelled from the spec: `positionInRange(position, range)` of
`src/util/position.ts` (missing from this excerpt) — 0 when the position
lies inside the range (bounds inclusive), -1 before it, 1 after it. -/
def positionInRange (p : Position) (r : Range) : Int :=
  if comparePosition p r.start < 0 then -1
  else if comparePosition p r.end_ > 0 then 1
  else 0

/-- Modelled from the spec: `rangeInRange(inner, outer)` of
`src/util/position.ts` (missing from this excerpt) — true when both ends
of `inner` lie inside `outer` (strict-or-equal on the bounds). -/
def rangeInRange (inner outer : Range) : Bool :=
  positionInRange inner.start outer == 0 && positionInRange inner.end_ outer == 0

/-- JavaScript `String.prototype.endsWith`, embedded on the character list
of a Lean string. -/
def jsEndsWith (s t : String) : Bool :=
  t.toList.isSuffixOf s.toList

/-! ## Symbol snapshots -/

/-- Flattened symbol record (`SymbolInfo` of `src/handler/helper.ts`).
`kind` is the string kind name produced by `getSymbolKind`, which is what
the query filters compare against. -/
structure SymbolInfo where
  text : String
  kind : String
  range : Range
  level : Nat
  lnum : Nat
  col : Nat
  containerName : Option String := none
deriving DecidableEq, Repr

/-! ## Query engine (`Symbols` class)

The queries run over the buffer's cached snapshot.  They are embedded in
the state where the snapshot's version matches the document (the
`getSymbols` fast path, which returns the cached array itself without a
provider call); the stale path, which first awaits a fetch, is covered by
the `BufState` trace model below.  Crucially the JS queries receive the
cached array *by reference*: `Array.prototype.reverse` mutates it in
place, which the embedding tracks through the `cache` field of each
outcome. -/

/-- Editor-facing side effects performed by `getCurrentFunctionSymbol`:
writing the `coc_current_function` buffer variable and firing the
`CocStatusChange` autocommand. -/
inductive Effect where
  | setVar (varName value : String)
  | doAutocmd (auName : String)
deriving DecidableEq, Repr

/-- Result of `getCurrentFunctionInfo`: the JS function returns either the
empty list `[]` or the list `[functionName, functionStart, functionEnd]`. -/
inductive CurrentFunctionInfo where
  | empty
  | info (functionName : String) (functionStart functionEnd : Position)
deriving DecidableEq, Repr

/-- External inputs read by the query functions: whether
`workspace.getDocument(bufnr)` yields a document, whether it is attached,
whether a `documentSymbol` provider is registered, and the cursor
position returned by `window.getCursorPosition()`. -/
structure QueryEnv where
  docExists : Bool
  attached : Bool
  hasProvider : Bool
  position : Position
deriving DecidableEq, Repr

/-- Loop predicate shared by `getCurrentFunctionInfo` and
`getCurrentFunctionSymbol` (`symbols.ts` lines 80-82 and 114-116): the
symbol's range contains the position and its display text does not end
with the literal suffix `") callback"`. -/
def symbolMatch (pos : Position) (s : SymbolInfo) : Bool :=
  decide (positionInRange pos s.range = 0) && !(jsEndsWith s.text ") callback")

/-- Reverse scan of `symbols.ts` lines 79-89 / 113-121: iterate the list in
reverse document order and take the first symbol satisfying
`symbolMatch`. -/
def currentFunctionSearch (symbols : List SymbolInfo) (pos : Position) : Option SymbolInfo :=
  symbols.reverse.find? (symbolMatch pos)

/-- Outcome of `getCurrentFunctionInfo`: the returned value, the buffer's
cached symbols array after the call (JS `reverse()` mutates it in place),
and whether `getDocumentSymbols` (the only path to a provider call) was
reached. -/
structure InfoOutcome where
  result : CurrentFunctionInfo
  cache : List SymbolInfo
  queriedSymbols : Bool
deriving DecidableEq, Repr

/-- `Symbols.getCurrentFunctionInfo` (`symbols.ts` lines 68-91).  The early
returns yield `[]`; otherwise the *cached array itself* is reversed
(`symbols.reverse()` on the reference returned by
`SymbolsBuffer.getSymbols`) and scanned for the first match. -/
def getCurrentFunctionInfo (env : QueryEnv) (cache : List SymbolInfo) : InfoOutcome :=
  if !env.docExists || !env.attached then ⟨.empty, cache, false⟩
  else if !env.hasProvider then ⟨.empty, cache, false⟩
  else if cache.isEmpty then ⟨.empty, cache, true⟩
  else
    let rev := cache.reverse
    match rev.find? (symbolMatch env.position) with
    | some s => ⟨.info s.text s.range.start s.range.end_, rev, true⟩
    | none => ⟨.empty, rev, true⟩

/-- Outcome of `getCurrentFunctionSymbol`: the return value (`none` models
the JS `undefined` of the early returns, `some name` a returned string),
the cache after the call, the editor effects performed, and whether
`getDocumentSymbols` was reached. -/
structure SymbolOutcome where
  result : Option String
  cache : List SymbolInfo
  effects : List Effect
  queriedSymbols : Bool
deriving DecidableEq, Repr

/-- Kind filter of `symbols.ts` lines 106-111. -/
def functionKinds : List String :=
  ["Class", "Method", "Function", "Struct"]

/-- `Symbols.getCurrentFunctionSymbol` (`symbols.ts` lines 93-128).
`functionUpdate` is the `coc.preferences.currentFunctionSymbolAutoUpdate`
preference; `labels` the `suggest.completionItemKindLabels` map (`none` =
key absent; a present empty label is falsy in JS and applies no prefix).
The empty-snapshot branch publishes the empty string unconditionally;
the main branch filters (copying the array, so the cache is untouched),
reverses, scans, decorates, and publishes only when the preference is
on. -/
def getCurrentFunctionSymbol (functionUpdate : Bool) (labels : String → Option String)
    (env : QueryEnv) (cache : List SymbolInfo) : SymbolOutcome :=
  if !env.docExists || !env.attached then ⟨none, cache, [], false⟩
  else if !env.hasProvider then ⟨none, cache, [], false⟩
  else if cache.isEmpty then
    ⟨some "", cache, [.setVar "coc_current_function" "", .doAutocmd "CocStatusChange"], true⟩
  else
    let filtered := cache.filter (fun s => functionKinds.contains s.kind)
    let functionName :=
      match filtered.reverse.find? (symbolMatch env.position) with
      | some s =>
        match labels s.kind.toLower with
        | some label => if label != "" then label ++ " " ++ s.text else s.text
        | none => s.text
      | none => ""
    if functionUpdate then
      ⟨some functionName, cache,
        [.setVar "coc_current_function" functionName, .doAutocmd "CocStatusChange"], true⟩
    else
      ⟨some functionName, cache, [], true⟩

/-- Containing-range search of `Symbols.selectSymbolRange` (`symbols.ts`
lines 148-155), before the `inner` narrowing: filter to the supported
kinds, then reverse-scan for the first symbol whose range differs from
the reference range and contains it. -/
def selectRangeSearch (supportedSymbols : List String) (range : Range)
    (symbols : List SymbolInfo) : Option Range :=
  ((symbols.filter (fun s => supportedSymbols.contains s.kind)).reverse.find?
    (fun s => !(decide (s.range = range)) && rangeInRange range s.range)).map (fun s => s.range)

/-! ## SymbolsBuffer state machine

`SymbolsBuffer` is embedded as a state with an explicit step function.
The provider call `languages.getDocumentSymbol(textDocument, token)` is
the only suspension point, so each fetch splits into an atomic start
(everything up to the `await`, `symbols.ts` lines 210-215) and an atomic
resume (`providerReturn`, lines 216-248).  Cancellation tokens are
numbered; `cancelled` records every token whose source was cancelled.
The provider result is carried in already-normalized form (`none` for a
null/undefined result; normalization maps empty results to empty lists
and non-empty ones to non-empty lists, so the `symbols == null` test is
unaffected). -/

/-- An outstanding provider call: its cancellation token and the document
version sampled at fetch start (`symbols.ts` line 212). -/
structure Fetch where
  tokenId : Nat
  sampledVersion : Nat
deriving DecidableEq, Repr

/-- State of one `SymbolsBuffer` together with its document's version and
the set of provider calls currently awaited. -/
structure BufState where
  version : Option Nat
  symbols : List SymbolInfo
  tokenSource : Option Nat
  cancelled : List Nat
  pending : List Fetch
  debounced : Bool
  autoUpdate : Bool
  docVersion : Nat
  nextToken : Nat
deriving DecidableEq, Repr

/-- State of a freshly constructed `SymbolsBuffer` attached to a document
at version 1: no committed version, empty snapshot, nothing pending. -/
def initState : BufState :=
  { version := none, symbols := [], tokenSource := none, cancelled := [], pending := []
    debounced := false, autoUpdate := false, docVersion := 1, nextToken := 0 }

/-- `SymbolsBuffer.cancel` (`symbols.ts` lines 251-257): clear the pending
debounced call (`fetchSymbols.clear()`) and cancel and drop the token
source currently held, if any. -/
def cancelOp (s : BufState) : BufState :=
  { s with
    debounced := false
    cancelled := match s.tokenSource with
      | some t => t :: s.cancelled
      | none => s.cancelled
    tokenSource := none }

/-- Synchronous prefix of `SymbolsBuffer._fetchSymbols` (`symbols.ts` lines
209-215): no-op when the document version equals the committed version,
otherwise create a fresh token source (overwriting, *not* cancelling, the
stored one) and issue the provider call. -/
def fetchStart (s : BufState) : BufState :=
  if s.version = some s.docVersion then s
  else
    { s with
      tokenSource := some s.nextToken
      pending := s.pending ++ [⟨s.nextToken, s.docVersion⟩]
      nextToken := s.nextToken + 1 }

/-- `SymbolsBuffer.getSymbols` up to its suspension point (`symbols.ts`
lines 190-199): set `autoUpdate`, return the snapshot at once when the
versions match, otherwise `cancel()` then start a fetch. -/
def getSymbolsStep (s : BufState) : BufState :=
  let s1 := { s with autoUpdate := true }
  if s1.version = some s1.docVersion then s1
  else fetchStart (cancelOp s1)

/-- Value returned immediately by `SymbolsBuffer.getSymbols` on its fast
path; `none` when the versions differ and the return value is only
produced after the awaited fetch (covered by the trace model). -/
def getSymbolsHitResult (s : BufState) : Option (List SymbolInfo) :=
  if s.version = some s.docVersion then some s.symbols else none

/-- Resume of `SymbolsBuffer._fetchSymbols` after the provider call
(`symbols.ts` lines 216-248) for the awaited fetch with token `t`:
`this.tokenSource` is cleared unconditionally (line 216, even when it
belongs to a different fetch); a null result or a cancelled token makes
no snapshot change; otherwise the normalized result is committed under
the version sampled at fetch start. -/
def providerReturnStep (s : BufState) (t : Nat) (res : Option (List SymbolInfo)) : BufState :=
  match s.pending.find? (fun f => f.tokenId == t) with
  | none => s
  | some f =>
    let s1 := { s with pending := s.pending.filter (fun g => g.tokenId != t), tokenSource := none }
    match res with
    | none => s1
    | some flattened =>
      if s.cancelled.contains f.tokenId then s1
      else { s1 with version := some f.sampledVersion, symbols := flattened }

/-- Events of the buffer model: a document mutation (version bump followed
by `onChange`, which is `cancel()`), an external call to the debounced
`fetchSymbols`, the debounce timer elapsing, the forced `getSymbols`
path, an external `cancel()`, and a provider call resuming with its
result. -/
inductive Ev where
  | docChange
  | schedule
  | debounceFire
  | getSymbols
  | cancelEv
  | providerReturn (t : Nat) (res : Option (List SymbolInfo))
deriving DecidableEq, Repr

/-- One atomic step of the buffer model. -/
def stepEv (s : BufState) (e : Ev) : BufState :=
  match e with
  | .docChange => cancelOp { s with docVersion := s.docVersion + 1 }
  | .schedule => { s with debounced := true }
  | .debounceFire => if s.debounced then fetchStart { s with debounced := false } else s
  | .getSymbols => getSymbolsStep s
  | .cancelEv => cancelOp s
  | .providerReturn t res => providerReturnStep s t res

/-- Execution of a trace of events. -/
def exec (s : BufState) (evs : List Ev) : BufState :=
  evs.foldl stepEv s

/-- Outstanding provider calls whose token has not been cancelled. -/
def liveFetches (s : BufState) : List Fetch :=
  s.pending.filter (fun f => !(s.cancelled.contains f.tokenId))

/-- Trace side condition for the amended version-monotonicity statement: a
fetch-starting event (`getSymbols` or the debounce timer) only occurs
while no provider call is outstanding, i.e. fetches never overlap. -/
def okEvB (s : BufState) (e : Ev) : Bool :=
  match e with
  | .getSymbols => s.pending.isEmpty
  | .debounceFire => s.pending.isEmpty
  | _ => true

/-- A trace all of whose fetch-starting events occur with no outstanding
provider call. -/
def goodTraceB : BufState → List Ev → Bool
  | _, [] => true
  | s, e :: es => okEvB s e && goodTraceB (stepEv s e) es

/-- Committed-version comparison: `verLe a b` holds when a version
committed in `a` is still committed, not smaller, in `b`. -/
def verLe (a b : Option Nat) : Prop :=
  ∀ v, a = some v → ∃ w, b = some w ∧ v ≤ w

/-- Invariant carried along no-overlap traces: at most one provider call is
pending; a pending call whose token is not cancelled sampled the current
document version and is the one held in `tokenSource`; the committed
version never exceeds the document version. -/
def BufInv (s : BufState) : Prop :=
  s.pending.length ≤ 1 ∧
  (∀ f ∈ s.pending, ¬(s.cancelled.contains f.tokenId = true) →
    f.sampledVersion = s.docVersion ∧ s.tokenSource = some f.tokenId) ∧
  (∀ v, s.version = some v → v ≤ s.docVersion)

/-- Property used for the innermost-search theorem: at position `pos`, of
any two symbols both containing `pos`, the later one in document order is
nested inside the earlier one — the shape of pre-order-by-nesting
flattened snapshots. -/
def nestedAt (pos : Position) (a b : SymbolInfo) : Prop :=
  positionInRange pos a.range = 0 → positionInRange pos b.range = 0 →
    rangeInRange b.range a.range = true

/-! ## Concrete fixtures -/

/-- Nested fixture symbol `A`, body lines `[0, 100)`. -/
def symA : SymbolInfo :=
  { text := "A", kind := "Function", range := ⟨⟨0, 0⟩, ⟨100, 0⟩⟩, level := 0, lnum := 1, col := 1 }

/-- Nested fixture symbol `B` inside `A`, body lines `[10, 50)`. -/
def symB : SymbolInfo :=
  { text := "B", kind := "Function", range := ⟨⟨10, 0⟩, ⟨50, 0⟩⟩, level := 1, lnum := 11, col := 1 }

/-- Nested fixture symbol `C` inside `B`, body lines `[20, 30)`. -/
def symC : SymbolInfo :=
  { text := "C", kind := "Function", range := ⟨⟨20, 0⟩, ⟨30, 0⟩⟩, level := 2, lnum := 21, col := 1 }

/-- The pre-order fixture snapshot `[A, B, C]`. -/
def nestedSnapshot : List SymbolInfo := [symA, symB, symC]

/-- Cursor position on line 25 (inside `C`, `B` and `A`). -/
def pos25 : Position := ⟨25, 0⟩

/-- Cursor position on line 60 (inside `A` only). -/
def pos60 : Position := ⟨60, 0⟩

/-- Cursor position on line 200 (inside no fixture symbol). -/
def pos200 : Position := ⟨200, 0⟩

/-- Fixture: enclosing ordinary function for the callback-exclusion cases. -/
def symOuterFn : SymbolInfo :=
  { text := "processData", kind := "Function", range := ⟨⟨0, 0⟩, ⟨100, 0⟩⟩,
    level := 0, lnum := 1, col := 1 }

/-- Fixture: pseudo-function entry whose display text ends with
`") callback"`, nested inside `symOuterFn`. -/
def symCallbackEntry : SymbolInfo :=
  { text := "processData() callback", kind := "Function", range := ⟨⟨10, 0⟩, ⟨50, 0⟩⟩,
    level := 1, lnum := 11, col := 1 }

/-- Query environment with document present, attached, provider registered,
and cursor at `p`. -/
def envAt (p : Position) : QueryEnv :=
  { docExists := true, attached := true, hasProvider := true, position := p }

/-- Kind-label map with no entries (the JS default `{}`). -/
def noLabels : String → Option String := fun _ => none

/-- Trace reaching a state with two outstanding non-cancelled tokens: a
forced fetch is awaiting the provider when the debounced path starts a
second fetch, overwriting the stored token source without cancelling
it. -/
def overlapTrace : List Ev := [Ev.getSymbols, Ev.schedule, Ev.debounceFire]

/-- Trace prefix for the version-decrease counterexample: the forced fetch
(token 0) is orphaned by a debounced fetch (token 1); a document change
then cancels only token 1; a fresh forced fetch (token 2) for version 2
returns and commits version 2. -/
def staleTraceA : List Ev :=
  [Ev.getSymbols, Ev.schedule, Ev.debounceFire, Ev.docChange, Ev.getSymbols,
    Ev.providerReturn 2 (some [symA])]

/-- Completion of the version-decrease counterexample: the orphaned,
never-cancelled token 0 (sampled at version 1) returns last and commits
version 1 over version 2. -/
def staleTraceB : List Ev :=
  staleTraceA ++ [Ev.providerReturn 0 (some [])]

/-- Buffer state with a committed snapshot for version 1 and one
outstanding fetch (token 0) sampled at document version 2. -/
def stateWithPendingFetch : BufState :=
  { version := some 1, symbols := [symA], tokenSource := some 0, cancelled := []
    pending := [⟨0, 2⟩], debounced := false, autoUpdate := true, docVersion := 2, nextToken := 1 }

/-- Buffer state whose snapshot is current for the document (version 3). -/
def stateVersionMatch : BufState :=
  { version := some 3, symbols := [symA, symB], tokenSource := none, cancelled := [5]
    pending := [], debounced := false, autoUpdate := false, docVersion := 3, nextToken := 6 }

/-- Buffer state holding a stored token (id 5) while the committed version
is stale, with a debounced call scheduled. -/
def stateStoredToken : BufState :=
  { version := none, symbols := [], tokenSource := some 5, cancelled := []
    pending := [⟨5, 1⟩], debounced := true, autoUpdate := true, docVersion := 1, nextToken := 6 }

/-- Reference range lines `[12, 20)`, properly inside `symB`'s range. -/
def refRange : Range := ⟨⟨12, 0⟩, ⟨20, 0⟩⟩

/-- Non-overlapping witness trace, first half: one forced fetch commits
version 1. -/
def monoTraceA : List Ev := [Ev.getSymbols, Ev.providerReturn 0 (some [symA])]

/-- Non-overlapping witness trace, second half: the document changes and a
second forced fetch commits version 2. -/
def monoTraceB : List Ev := [Ev.docChange, Ev.getSymbols, Ev.providerReturn 1 (some [])]

/-! ## Order lemmas for the spec-modelled position comparison -/

theorem comparePosition_self (a : Position) : comparePosition a a = 0 := by
  simp [comparePosition]

theorem comparePosition_le_trans {a b c : Position} (h1 : comparePosition a b ≤ 0)
    (h2 : comparePosition b c ≤ 0) : comparePosition a c ≤ 0 := by
  simp only [comparePosition] at *
  split_ifs at * <;> omega

theorem comparePosition_nonneg_flip {a b : Position} (h : 0 ≤ comparePosition a b) :
    comparePosition b a ≤ 0 := by
  simp only [comparePosition] at *
  split_ifs at * <;> omega

theorem comparePosition_nonpos_flip {a b : Position} (h : comparePosition a b ≤ 0) :
    0 ≤ comparePosition b a := by
  simp only [comparePosition] at *
  split_ifs at * <;> omega

theorem positionInRange_zero {p : Position} {r : Range} (h : positionInRange p r = 0) :
    0 ≤ comparePosition p r.start ∧ comparePosition p r.end_ ≤ 0 := by
  simp only [positionInRange] at h
  split_ifs at h with h1 h2
  all_goals constructor <;> omega

/-- A range that contains some position is contained in itself. -/
theorem rangeInRange_self {p : Position} {r : Range} (h : positionInRange p r = 0) :
    rangeInRange r r = true := by
  obtain ⟨h1, h2⟩ := positionInRange_zero h
  have h1' := comparePosition_nonneg_flip h1
  have hse := comparePosition_le_trans h1' h2
  have hes := comparePosition_nonpos_flip hse
  have hs := comparePosition_self r.start
  have he := comparePosition_self r.end_
  simp only [rangeInRange, positionInRange]
  rw [if_neg (by omega), if_neg (by omega), if_neg (by omega), if_neg (by omega)]
  rfl

/-! ## Innermost-search helper -/

/-- Reverse scan over a pre-order-by-nesting snapshot with no
callback-suffixed entries yields a containing symbol that is nested
inside every containing symbol of the snapshot. -/
theorem innermost_aux (pos : Position) :
    ∀ (syms : List SymbolInfo) (s : SymbolInfo),
      (∀ t ∈ syms, jsEndsWith t.text ") callback" = false) →
      List.Pairwise (nestedAt pos) syms →
      currentFunctionSearch syms pos = some s →
      positionInRange pos s.range = 0 ∧
        ∀ t ∈ syms, positionInRange pos t.range = 0 → rangeInRange s.range t.range = true := by
  intro syms
  induction syms with
  | nil =>
    intro s _ _ hf
    simp [currentFunctionSearch] at hf
  | cons x xs ih =>
    intro s hnc hpw hf
    rw [List.pairwise_cons] at hpw
    obtain ⟨hx, hpw'⟩ := hpw
    have hncx : jsEndsWith x.text ") callback" = false := hnc x (List.mem_cons_self x xs)
    have hnc' : ∀ t ∈ xs, jsEndsWith t.text ") callback" = false :=
      fun t ht => hnc t (List.mem_cons_of_mem x ht)
    unfold currentFunctionSearch at hf
    rw [List.reverse_cons, List.find?_append] at hf
    cases hrev : xs.reverse.find? (symbolMatch pos) with
    | some s' =>
      rw [hrev] at hf
      have hss : s' = s := by simpa [Option.or] using hf
      subst hss
      obtain ⟨hcont, hall⟩ := ih s' hnc' hpw' hrev
      have hmem : s' ∈ xs := List.mem_reverse.mp (List.mem_of_find?_eq_some hrev)
      refine ⟨hcont, ?_⟩
      intro t ht hcontt
      rcases List.mem_cons.mp ht with ht | ht
      · subst ht
        exact hx s' hmem hcontt hcont
      · exact hall t ht hcontt
    | none =>
      rw [hrev] at hf
      simp only [Option.or, List.find?] at hf
      cases hpx : symbolMatch pos x with
      | false => rw [hpx] at hf; cases hf
      | true =>
        rw [hpx] at hf
        have hxs : x = s := by simpa using hf
        subst hxs
        have hcontx : positionInRange pos x.range = 0 := by
          have := hpx
          simp only [symbolMatch, Bool.and_eq_true, decide_eq_true_eq] at this
          exact this.1
        refine ⟨hcontx, ?_⟩
        intro t ht hcontt
        rcases List.mem_cons.mp ht with ht | ht
        · subst ht
          exact rangeInRange_self hcontx
        · exfalso
          have hnone := List.find?_eq_none.mp hrev t (List.mem_reverse.mpr ht)
          apply hnone
          simp [symbolMatch, hcontt, hnc' t ht]

/-! ## Claim theorems: query engine -/

/-- C7: over the pre-order fixture `[A, B, C]` (bodies `[0,100)`, `[10,50)`,
`[20,30)`), the reverse scan resolves position 25 to `C` and position 60 to
`A`; a position contained in no symbol of a snapshot resolves to the empty
result; and over any pre-order-by-nesting snapshot without
callback-suffixed entries the symbol returned contains the position and is
the most deeply nested such symbol (its range is inside the range of every
containing symbol). -/
theorem innermost_search_correct :
    currentFunctionSearch nestedSnapshot pos25 = some symC ∧
    currentFunctionSearch nestedSnapshot pos60 = some symA ∧
    (∀ (syms : List SymbolInfo) (pos : Position),
      (∀ t ∈ syms, positionInRange pos t.range ≠ 0) →
      currentFunctionSearch syms pos = none) ∧
    (∀ (syms : List SymbolInfo) (pos : Position) (s : SymbolInfo),
      (∀ t ∈ syms, jsEndsWith t.text ") callback" = false) →
      List.Pairwise (nestedAt pos) syms →
      currentFunctionSearch syms pos = some s →
      positionInRange pos s.range = 0 ∧
        ∀ t ∈ syms, positionInRange pos t.range = 0 →
          rangeInRange s.range t.range = true) := by
  refine ⟨by decide, by decide, ?_, ?_⟩
  · intro syms pos h
    unfold currentFunctionSearch
    rw [List.find?_eq_none]
    intro a ha
    have hna := h a (List.mem_reverse.mp ha)
    simp [symbolMatch, hna]
  · intro syms pos s hnc hpw hf
    exact innermost_aux pos syms s hnc hpw hf

/-- Witness for C7: the generic conjuncts applied at concrete inputs — a
position outside every symbol yields the empty result, and the innermost
conjunct applied to the fixture snapshot at position 25 confirms
containment. -/
theorem innermost_search_correct_witness :
    currentFunctionSearch [symA] pos200 = none ∧ positionInRange pos25 symC.range = 0 := by
  have hpw : List.Pairwise (nestedAt pos25) nestedSnapshot := by
    unfold nestedSnapshot
    refine List.Pairwise.cons ?_ (List.Pairwise.cons ?_ (List.pairwise_singleton _ _))
    · intro t ht
      rcases List.mem_cons.mp ht with rfl | ht
      · exact fun _ _ => by decide
      · rcases List.mem_singleton.mp ht with rfl
        exact fun _ _ => by decide
    · intro t ht
      rcases List.mem_singleton.mp ht with rfl
      exact fun _ _ => by decide
  exact ⟨innermost_search_correct.2.2.1 [symA] pos200 (by decide),
    (innermost_search_correct.2.2.2 nestedSnapshot pos25 symC (by decide) hpw (by decide)).1⟩

/-- C8: a symbol whose display text ends with `") callback"` is never the
result of the current-function reverse scan; on the concrete fixture the
scan skips the containing callback entry and returns the enclosing
function. -/
theorem callback_symbols_never_returned :
    (∀ (syms : List SymbolInfo) (pos : Position) (s : SymbolInfo),
      currentFunctionSearch syms pos = some s → jsEndsWith s.text ") callback" = false) ∧
    currentFunctionSearch [symOuterFn, symCallbackEntry] pos25 = some symOuterFn := by
  constructor
  · intro syms pos s hf
    unfold currentFunctionSearch at hf
    have hp := List.find?_some hf
    simp only [symbolMatch, Bool.and_eq_true, Bool.not_eq_true'] at hp
    exact hp.2
  · decide

/-- Witness for C8: the generic conjunct applied to the fixture search. -/
theorem callback_symbols_never_returned_witness :
    jsEndsWith symOuterFn.text ") callback" = false :=
  callback_symbols_never_returned.1 [symOuterFn, symCallbackEntry] pos25 symOuterFn (by decide)

/-- C9: whenever the containing-range search of `selectSymbolRange` (before
inner narrowing) selects a range, that range contains the reference range
and differs from it — so repeated invocation with the previous result as
reference yields a strictly larger enclosing range or none, never the same
range twice. -/
theorem selectRange_strictly_enlarging :
    ∀ (supportedSymbols : List String) (range : Range) (syms : List SymbolInfo) (r : Range),
      selectRangeSearch supportedSymbols range syms = some r →
      rangeInRange range r = true ∧ r ≠ range := by
  intro sup range syms r h
  unfold selectRangeSearch at h
  rw [Option.map_eq_some'] at h
  obtain ⟨s, hfind, hr⟩ := h
  have hp := List.find?_some hfind
  simp only [Bool.and_eq_true, Bool.not_eq_true', decide_eq_false_iff_not] at hp
  subst hr
  exact ⟨hp.2, hp.1⟩

/-- Witness for C9: on the fixture snapshot with reference range
`[12,20)`, the search selects `B`'s range, which contains the reference
and differs from it. -/
theorem selectRange_strictly_enlarging_witness :
    rangeInRange refRange symB.range = true ∧ symB.range ≠ refRange :=
  selectRange_strictly_enlarging ["Function"] refRange nestedSnapshot symB.range (by decide)

/-- C10: when the document is missing, not attached, or has no
documentSymbol provider, `getCurrentFunctionSymbol` returns with no value
(the JS `undefined`, not the empty string), performs no publication and
never reaches `getDocumentSymbols` (hence no provider call); likewise
`getCurrentFunctionInfo` returns the empty list. -/
theorem missing_doc_or_provider_early_return :
    ∀ (functionUpdate : Bool) (labels : String → Option String) (env : QueryEnv)
      (cache : List SymbolInfo),
      (env.docExists = false ∨ env.attached = false ∨ env.hasProvider = false) →
      getCurrentFunctionSymbol functionUpdate labels env cache = ⟨none, cache, [], false⟩ ∧
        getCurrentFunctionInfo env cache = ⟨.empty, cache, false⟩ := by
  intro fu labels env cache h
  obtain ⟨de, hat, hp, p⟩ := env
  simp only at h
  cases de <;> cases hat <;> cases hp <;>
    simp_all [getCurrentFunctionSymbol, getCurrentFunctionInfo]

/-- Witness for C10 at a concrete missing document. -/
theorem missing_doc_or_provider_early_return_witness :
    getCurrentFunctionSymbol true noLabels ⟨false, true, true, pos25⟩ nestedSnapshot
        = ⟨none, nestedSnapshot, [], false⟩ ∧
      getCurrentFunctionInfo ⟨false, true, true, pos25⟩ nestedSnapshot
        = ⟨.empty, nestedSnapshot, false⟩ :=
  missing_doc_or_provider_early_return true noLabels ⟨false, true, true, pos25⟩ nestedSnapshot
    (Or.inl rfl)

/-- C5 counterexample: with the auto-update preference off and an empty
snapshot, `getCurrentFunctionSymbol` still writes the
`coc_current_function` buffer variable and fires the `CocStatusChange`
autocommand (`symbols.ts` lines 101-105 run before the preference is
consulted), refuting "never publishes when the preference is off, for
every input including the empty snapshot". -/
theorem empty_snapshot_publishes_when_update_off :
    (getCurrentFunctionSymbol false noLabels (envAt pos25) []).effects
        = [Effect.setVar "coc_current_function" "", Effect.doAutocmd "CocStatusChange"] ∧
      (getCurrentFunctionSymbol false noLabels (envAt pos25) []).effects ≠ [] := by
  decide

/-- C5 (amended): with the auto-update preference off,
`getCurrentFunctionSymbol` performs no publication whenever the snapshot
is nonempty (the empty/absent-snapshot branch publishes the empty string
regardless of the preference), and its return value is computed
identically whether the preference is on or off, for every input. -/
theorem no_publication_when_update_off_nonempty :
    (∀ (labels : String → Option String) (env : QueryEnv) (cache : List SymbolInfo),
      cache ≠ [] → (getCurrentFunctionSymbol false labels env cache).effects = []) ∧
    (∀ (fu1 fu2 : Bool) (labels : String → Option String) (env : QueryEnv)
        (cache : List SymbolInfo),
      (getCurrentFunctionSymbol fu1 labels env cache).result
        = (getCurrentFunctionSymbol fu2 labels env cache).result) := by
  constructor
  · intro labels env cache hne
    have hni : cache.isEmpty = false := by
      cases cache with
      | nil => exact absurd rfl hne
      | cons a l => rfl
    unfold getCurrentFunctionSymbol
    rw [hni]
    split_ifs <;> first | rfl | assumption
  · intro fu1 fu2 labels env cache
    unfold getCurrentFunctionSymbol
    split_ifs <;> rfl

/-- Witness for C5 (amended) on the fixture snapshot. -/
theorem no_publication_when_update_off_nonempty_witness :
    (getCurrentFunctionSymbol false noLabels (envAt pos25) nestedSnapshot).effects = [] ∧
      (getCurrentFunctionSymbol true noLabels (envAt pos25) nestedSnapshot).result
        = (getCurrentFunctionSymbol false noLabels (envAt pos25) nestedSnapshot).result :=
  ⟨no_publication_when_update_off_nonempty.1 noLabels (envAt pos25) nestedSnapshot (by decide),
    no_publication_when_update_off_nonempty.2 true false noLabels (envAt pos25) nestedSnapshot⟩

/-- C3 (code bug): `getCurrentFunctionInfo` iterates `symbols.reverse()`
directly on the cached array (no copying `filter` as in the other
queries), so the call reverses the cached snapshot in place: afterwards
the cache is `[C, B, A]`, and a second identical query resolves the
*outermost* symbol `A` instead of the innermost `C`, contradicting the
side-effect-free query design the reverse-scan algorithm relies on. -/
theorem getCurrentFunctionInfo_mutates_cache :
    (getCurrentFunctionInfo (envAt pos25) nestedSnapshot).cache = [symC, symB, symA] ∧
      (getCurrentFunctionInfo (envAt pos25) nestedSnapshot).cache ≠ nestedSnapshot ∧
      (getCurrentFunctionInfo (envAt pos25) nestedSnapshot).result
        = CurrentFunctionInfo.info "C" ⟨20, 0⟩ ⟨30, 0⟩ ∧
      (getCurrentFunctionInfo (envAt pos25)
          (getCurrentFunctionInfo (envAt pos25) nestedSnapshot).cache).result
        = CurrentFunctionInfo.info "A" ⟨0, 0⟩ ⟨100, 0⟩ := by
  decide

/-! ## Claim theorems: SymbolsBuffer -/

/-- C1 counterexample: starting from a fresh buffer, a forced fetch
followed by a scheduled debounced fetch that fires while the first is
still awaited leaves two outstanding provider calls, neither of whose
tokens has been cancelled — the debounced `_fetchSymbols` overwrites the
stored token source without cancelling it. -/
theorem two_live_tokens_reachable :
    (liveFetches (exec initState overlapTrace)).length = 2 ∧
      liveFetches (exec initState overlapTrace) = [⟨0, 1⟩, ⟨1, 1⟩] ∧
      (exec initState overlapTrace).cancelled = [] := by
  decide

/-- C1 (amended): the forced path of `getSymbols` cancels and discards the
token currently stored in `tokenSource`, if any, before issuing its
provider call; the debounced path overwrites the stored token without
cancelling it, so more than one non-cancelled outstanding token is
reachable. -/
theorem forced_path_cancels_stored_token :
    (∀ (s : BufState) (t : Nat), s.tokenSource = some t →
      ¬s.version = some s.docVersion →
      (stepEv s Ev.getSymbols).cancelled.contains t = true ∧
        (stepEv s Ev.getSymbols).tokenSource = some s.nextToken ∧
        (stepEv s Ev.getSymbols).pending = s.pending ++ [⟨s.nextToken, s.docVersion⟩]) ∧
    (∀ (s : BufState) (t : Nat), s.tokenSource = some t →
      ¬s.version = some s.docVersion → s.debounced = true →
      (stepEv s Ev.debounceFire).cancelled = s.cancelled ∧
        (stepEv s Ev.debounceFire).tokenSource = some s.nextToken ∧
        (stepEv s Ev.debounceFire).pending = s.pending ++ [⟨s.nextToken, s.docVersion⟩]) := by
  constructor
  · intro s t hts hv
    simp [stepEv, getSymbolsStep, cancelOp, fetchStart, hts, hv]
  · intro s t hts hv hd
    simp [stepEv, fetchStart, hts, hv, hd]

/-- Witness for C1 (amended) at a concrete stale state holding token 5. -/
theorem forced_path_cancels_stored_token_witness :
    ((stepEv stateStoredToken Ev.getSymbols).cancelled.contains 5 = true ∧
      (stepEv stateStoredToken Ev.getSymbols).tokenSource = some stateStoredToken.nextToken ∧
      (stepEv stateStoredToken Ev.getSymbols).pending
        = stateStoredToken.pending ++ [⟨stateStoredToken.nextToken, stateStoredToken.docVersion⟩]) ∧
    ((stepEv stateStoredToken Ev.debounceFire).cancelled = stateStoredToken.cancelled ∧
      (stepEv stateStoredToken Ev.debounceFire).tokenSource = some stateStoredToken.nextToken ∧
      (stepEv stateStoredToken Ev.debounceFire).pending
        = stateStoredToken.pending ++ [⟨stateStoredToken.nextToken, stateStoredToken.docVersion⟩]) :=
  ⟨forced_path_cancels_stored_token.1 stateStoredToken 5 rfl (by decide),
    forced_path_cancels_stored_token.2 stateStoredToken 5 rfl (by decide) rfl⟩

/-- C4: when the committed snapshot version equals the document version,
`getSymbols` returns the cached snapshot immediately, changes nothing but
the `autoUpdate` flag, starts no provider call (`pending` unchanged), and
a second call with no intervening document change returns the identical
snapshot, again without a provider call. -/
theorem getSymbols_idempotent_on_version_match :
    ∀ s : BufState, s.version = some s.docVersion →
      getSymbolsHitResult s = some s.symbols ∧
        stepEv s Ev.getSymbols = { s with autoUpdate := true } ∧
        (stepEv s Ev.getSymbols).pending = s.pending ∧
        getSymbolsHitResult (stepEv s Ev.getSymbols) = some s.symbols ∧
        stepEv (stepEv s Ev.getSymbols) Ev.getSymbols = { s with autoUpdate := true } := by
  intro s h
  simp [stepEv, getSymbolsStep, getSymbolsHitResult, h]

/-- Witness for C4 at a concrete version-matched state. -/
theorem getSymbols_idempotent_on_version_match_witness :
    getSymbolsHitResult stateVersionMatch = some stateVersionMatch.symbols ∧
      stepEv stateVersionMatch Ev.getSymbols = { stateVersionMatch with autoUpdate := true } ∧
      (stepEv stateVersionMatch Ev.getSymbols).pending = stateVersionMatch.pending ∧
      getSymbolsHitResult (stepEv stateVersionMatch Ev.getSymbols)
        = some stateVersionMatch.symbols ∧
      stepEv (stepEv stateVersionMatch Ev.getSymbols) Ev.getSymbols
        = { stateVersionMatch with autoUpdate := true } :=
  getSymbols_idempotent_on_version_match stateVersionMatch rfl

/-- C6 counterexample: a fetch whose provider result is the *empty* list is
committed — from a state holding a version-1 snapshot `[A]` with a fetch
sampled at version 2 outstanding, the empty return replaces the snapshot
with `[]` and advances the version to 2, refuting "an empty result makes
no snapshot change". -/
theorem empty_result_commits_snapshot :
    (stepEv stateWithPendingFetch (Ev.providerReturn 0 (some []))).symbols = [] ∧
      (stepEv stateWithPendingFetch (Ev.providerReturn 0 (some []))).symbols
        ≠ stateWithPendingFetch.symbols ∧
      (stepEv stateWithPendingFetch (Ev.providerReturn 0 (some []))).version = some 2 ∧
      stateWithPendingFetch.version = some 1 := by
  decide

/-- C6 (amended): a fetch whose provider result is absent (null), or whose
token was cancelled while awaiting the provider, makes no snapshot
change: committed symbols and version are exactly what they were before,
for every prior cache state. -/
theorem null_or_cancelled_leaves_snapshot :
    ∀ (s : BufState) (t : Nat) (res : Option (List SymbolInfo)),
      res = none ∨ s.cancelled.contains t = true →
      (stepEv s (Ev.providerReturn t res)).version = s.version ∧
        (stepEv s (Ev.providerReturn t res)).symbols = s.symbols := by
  intro s t res h
  simp only [stepEv, providerReturnStep]
  cases hfind : s.pending.find? (fun f => f.tokenId == t) with
  | none => exact ⟨rfl, rfl⟩
  | some f =>
    have hft : f.tokenId = t := by simpa using List.find?_some hfind
    rcases h with h | h
    · subst h
      exact ⟨rfl, rfl⟩
    · cases res with
      | none => exact ⟨rfl, rfl⟩
      | some l =>
        dsimp only
        rw [hft, if_pos h]
        exact ⟨rfl, rfl⟩

/-- Witness for C6 (amended): a cancelled fetch returning leaves the
version-1 snapshot `[A]` untouched. -/
theorem null_or_cancelled_leaves_snapshot_witness :
    (stepEv { stateWithPendingFetch with cancelled := [0] }
        (Ev.providerReturn 0 (some []))).version
      = ({ stateWithPendingFetch with cancelled := [0] } : BufState).version ∧
    (stepEv { stateWithPendingFetch with cancelled := [0] }
        (Ev.providerReturn 0 (some []))).symbols
      = ({ stateWithPendingFetch with cancelled := [0] } : BufState).symbols :=
  null_or_cancelled_leaves_snapshot { stateWithPendingFetch with cancelled := [0] } 0
    (some []) (Or.inr (by decide))

/-! ## Version-monotonicity machinery -/

theorem verLe_refl (a : Option Nat) : verLe a a :=
  fun v h => ⟨v, h, le_refl v⟩

theorem verLe_trans {a b c : Option Nat} (h1 : verLe a b) (h2 : verLe b c) : verLe a c := by
  intro v hv
  obtain ⟨w, hw, hvw⟩ := h1 v hv
  obtain ⟨u, hu, hwu⟩ := h2 w hw
  exact ⟨u, hu, le_trans hvw hwu⟩

theorem exec_append (s : BufState) (a b : List Ev) :
    exec s (a ++ b) = exec (exec s a) b := by
  simp [exec, List.foldl_append]

theorem goodTraceB_append (a : List Ev) : ∀ (s : BufState) (b : List Ev),
    goodTraceB s (a ++ b) = (goodTraceB s a && goodTraceB (exec s a) b) := by
  induction a with
  | nil => intro s b; simp [goodTraceB, exec]
  | cons e es ih =>
    intro s b
    show (okEvB s e && goodTraceB (stepEv s e) (es ++ b))
        = ((okEvB s e && goodTraceB (stepEv s e) es) && goodTraceB (exec (stepEv s e) es) b)
    rw [ih, Bool.and_assoc]

theorem length_le_one_mem_eq {α : Type _} {l : List α} {a : α}
    (h1 : l.length ≤ 1) (h2 : a ∈ l) : l = [a] := by
  cases l with
  | nil => cases h2
  | cons x xs =>
    cases xs with
    | nil =>
      rcases List.mem_singleton.mp h2 with rfl
      rfl
    | cons y ys =>
      exfalso
      simp [List.length_cons] at h1

theorem fetchStart_version (s : BufState) : (fetchStart s).version = s.version := by
  unfold fetchStart
  split_ifs <;> rfl

/-- Cancelling (with a document version not below the current one) restores
the invariant: every pending fetch ends up cancelled, so the liveness
obligations hold vacuously. -/
theorem bufInv_cancel_bump (s : BufState) (v : Nat) (hv : s.docVersion ≤ v)
    (h : BufInv s) : BufInv (cancelOp { s with docVersion := v }) := by
  obtain ⟨h1, h2, h3⟩ := h
  unfold BufInv cancelOp
  dsimp only
  cases hts : s.tokenSource with
  | some t =>
    dsimp only
    refine ⟨h1, ?_, fun w hw => le_trans (h3 w hw) hv⟩
    intro f hf hnc
    exfalso
    have hnc0 : ¬(s.cancelled.contains f.tokenId = true) := by
      intro hc
      have hcm : f.tokenId ∈ s.cancelled := by simpa using hc
      exact hnc (by simp [hcm])
    have hfit := (h2 f hf hnc0).2
    rw [hts] at hfit
    have hteq : t = f.tokenId := by injection hfit
    subst hteq
    exact hnc (by simp)
  | none =>
    dsimp only
    refine ⟨h1, ?_, fun w hw => le_trans (h3 w hw) hv⟩
    intro f hf hnc
    exfalso
    have hfit := (h2 f hf hnc).2
    rw [hts] at hfit
    cases hfit

/-- Starting a fetch from a state with no pending provider call yields a
state satisfying the invariant. -/
theorem bufInv_fetchStart (s : BufState) (hp : s.pending = [])
    (h3 : ∀ w, s.version = some w → w ≤ s.docVersion) : BufInv (fetchStart s) := by
  unfold BufInv fetchStart
  split_ifs with hv
  · exact ⟨by simp [hp], fun f hf _ => absurd hf (by simp [hp]), h3⟩
  · refine ⟨?_, ?_, ?_⟩
    · simp [hp]
    · intro f hf _
      simp [hp] at hf
      subst hf
      exact ⟨rfl, rfl⟩
    · exact h3

/-- One step of the buffer model preserves the invariant and never
decreases the committed version, provided fetch-starting events occur
only with no fetch outstanding. -/
theorem bufInv_step (s : BufState) (e : Ev) (hI : BufInv s) (hok : okEvB s e = true) :
    BufInv (stepEv s e) ∧ verLe s.version (stepEv s e).version := by
  obtain ⟨h1, h2, h3⟩ := hI
  cases e with
  | docChange =>
    exact ⟨bufInv_cancel_bump s (s.docVersion + 1) (Nat.le_succ _) ⟨h1, h2, h3⟩, verLe_refl _⟩
  | schedule =>
    exact ⟨⟨h1, h2, h3⟩, verLe_refl _⟩
  | cancelEv =>
    exact ⟨bufInv_cancel_bump s s.docVersion (le_refl _) ⟨h1, h2, h3⟩, verLe_refl _⟩
  | getSymbols =>
    have hp : s.pending = [] := by simpa [okEvB, List.isEmpty_iff] using hok
    constructor
    · show BufInv (getSymbolsStep s)
      unfold getSymbolsStep
      dsimp only
      split_ifs with hv
      · exact ⟨by simp [hp], fun f hf _ => absurd hf (by simp [hp]), h3⟩
      · exact bufInv_fetchStart _ hp h3
    · show verLe s.version (getSymbolsStep s).version
      have hver : (getSymbolsStep s).version = s.version := by
        unfold getSymbolsStep
        dsimp only
        split_ifs
        · rfl
        · rw [fetchStart_version]
          rfl
      rw [hver]
      exact verLe_refl _
  | debounceFire =>
    have hp : s.pending = [] := by simpa [okEvB, List.isEmpty_iff] using hok
    constructor
    · show BufInv (stepEv s Ev.debounceFire)
      unfold stepEv
      split_ifs with hd
      · exact bufInv_fetchStart _ hp h3
      · exact ⟨h1, h2, h3⟩
    · show verLe s.version (stepEv s Ev.debounceFire).version
      unfold stepEv
      split_ifs with hd
      · rw [fetchStart_version]
        exact verLe_refl _
      · exact verLe_refl _
  | providerReturn t res =>
    constructor
    · show BufInv (providerReturnStep s t res)
      unfold providerReturnStep
      cases hfind : s.pending.find? (fun f => f.tokenId == t) with
      | none => exact ⟨h1, h2, h3⟩
      | some f =>
        have hmem := List.mem_of_find?_eq_some hfind
        have hft : f.tokenId = t := by simpa using List.find?_some hfind
        have hfilter : s.pending.filter (fun g => g.tokenId != t) = [] := by
          rw [length_le_one_mem_eq h1 hmem]
          simp [hft]
        dsimp only
        cases res with
        | none =>
          exact ⟨by simp [hfilter], fun g hg _ => absurd hg (by simp [hfilter]), h3⟩
        | some l =>
          dsimp only
          split_ifs with hc
          · exact ⟨by simp [hfilter], fun g hg _ => absurd hg (by simp [hfilter]), h3⟩
          · have hsv : f.sampledVersion = s.docVersion := (h2 f hmem hc).1
            refine ⟨by simp [hfilter], fun g hg _ => absurd hg (by simp [hfilter]), ?_⟩
            intro w hw
            have hws : f.sampledVersion = w := by injection hw
            rw [← hws, hsv]
    · show verLe s.version (providerReturnStep s t res).version
      unfold providerReturnStep
      cases hfind : s.pending.find? (fun f => f.tokenId == t) with
      | none => exact verLe_refl _
      | some f =>
        dsimp only
        cases res with
        | none => exact verLe_refl _
        | some l =>
          dsimp only
          split_ifs with hc
          · exact verLe_refl _
          · intro w hw
            have hsv : f.sampledVersion = s.docVersion :=
              (h2 f (List.mem_of_find?_eq_some hfind) hc).1
            exact ⟨f.sampledVersion, rfl, by rw [hsv]; exact h3 w hw⟩

theorem bufInv_initState : BufInv initState := by
  refine ⟨?_, ?_, ?_⟩
  · decide
  · intro f hf
    simp [initState] at hf
  · intro w hw
    simp [initState] at hw

/-- Trace induction: along a trace whose fetch-starting events occur only
with no fetch outstanding, the invariant is preserved and the committed
version never decreases. -/
theorem bufInv_exec : ∀ (evs : List Ev) (s : BufState), BufInv s → goodTraceB s evs = true →
    BufInv (exec s evs) ∧ verLe s.version (exec s evs).version := by
  intro evs
  induction evs with
  | nil =>
    intro s h _
    exact ⟨h, verLe_refl _⟩
  | cons e es ih =>
    intro s h hg
    have hg' : okEvB s e = true ∧ goodTraceB (stepEv s e) es = true := by
      simpa [goodTraceB, Bool.and_eq_true] using hg
    obtain ⟨hstep, hle⟩ := bufInv_step s e h hg'.1
    obtain ⟨hinv, hle'⟩ := ih (stepEv s e) hstep hg'.2
    exact ⟨hinv, verLe_trans hle hle'⟩

/-! ## Claim theorems: version monotonicity -/

/-- C2 counterexample: an interleaving of the public operations in which a
fetch orphaned by the debounced path (its token never cancelled) returns
after a newer fetch has committed version 2: the late commit overwrites
the snapshot and the committed version *decreases* from 2 back to 1,
refuting "the committed snapshot version never decreases for every
interleaving of fetches". -/
theorem version_decrease_reachable :
    (exec initState staleTraceA).version = some 2 ∧
      (exec initState staleTraceA).symbols = [symA] ∧
      (exec initState staleTraceB).version = some 1 ∧
      (exec initState staleTraceB).symbols = [] := by
  decide

/-- C2 (amended): along every trace in which each fetch-starting event
(forced or debounced) occurs with no provider call outstanding — i.e.
fetches never overlap — the committed snapshot version never decreases,
and each commit writes the version sampled at its fetch start. -/
theorem version_monotone_no_overlap :
    ∀ (evs1 evs2 : List Ev), goodTraceB initState (evs1 ++ evs2) = true →
      verLe (exec initState evs1).version (exec initState (evs1 ++ evs2)).version := by
  intro a b hg
  have hg2 : goodTraceB initState a = true ∧ goodTraceB (exec initState a) b = true := by
    simpa [goodTraceB_append, Bool.and_eq_true] using hg
  have h1 := bufInv_exec a initState bufInv_initState hg2.1
  have h2 := bufInv_exec b (exec initState a) h1.1 hg2.2
  rw [exec_append]
  exact h2.2

/-- Witness for C2 (amended): a non-overlapping trace committing version 1
and then, after a document change, version 2; the theorem yields
monotonicity across the two halves. -/
theorem version_monotone_no_overlap_witness :
    goodTraceB initState (monoTraceA ++ monoTraceB) = true ∧
      verLe (exec initState monoTraceA).version
        (exec initState (monoTraceA ++ monoTraceB)).version :=
  ⟨by decide, version_monotone_no_overlap monoTraceA monoTraceB (by decide)⟩
